import Mathlib

/-!
Verification development for the CalendarSyncBridge repository (src/main.py).

The embedding models UTC instants as microseconds since the Unix epoch
(Python `datetime` objects normalized to UTC carry microsecond resolution),
calendar backends as lists of canonical events, and Python dicts as
association lists with Python assignment semantics (later assignment to an
existing key overwrites in place; a fresh key is appended at the end).
-/

namespace CalendarSync

/-- Microseconds per day; Python `datetime` resolution is the microsecond. -/
def usPerDay : Int := 86400000000

/-- Embeds Python `datetime.date()` on a UTC instant: the civil day number
(days since 1970-01-01) containing the instant. -/
def dateOf (t : Int) : Int := t.fdiv usPerDay

/-- Embeds `datetime.combine(day, time.min)` in UTC: first instant of the day. -/
def startOfDay (day : Int) : Int := day * usPerDay

/-- Embeds `datetime.combine(day, time.max)` in UTC: `time.max` is
23:59:59.999999, the last representable instant of the day. -/
def endOfDay (day : Int) : Int := day * usPerDay + (usPerDay - 1)

/-- Embeds the window computation of `CalendarSyncManager.__init__`
(src/main.py lines 195-202): `today = now.date()` in UTC,
`time_limit = combine(today - past_days, time.min)`,
`time_limit_future = combine(today + future_days, time.max)`. -/
def computeWindow (now pastDays futureDays : Int) : Int × Int :=
  (startOfDay (dateOf now - pastDays), endOfDay (dateOf now + futureDays))

/-- Civil date to day number since 1970-01-01 (proleptic Gregorian), the
standard era-based algorithm, used to name concrete instants in theorems. -/
def daysFromCivil (y m d : Int) : Int :=
  let yAdj : Int := if m ≤ 2 then y - 1 else y
  let era : Int := yAdj.fdiv 400
  let yoe : Int := yAdj - era * 400
  let mp : Int := (m + 9).emod 12
  let doy : Int := (153 * mp + 2).fdiv 5 + d - 1
  let doe : Int := yoe * 365 + yoe.fdiv 4 - yoe.fdiv 100 + doy
  era * 146097 + doe - 719468

/-- UTC instant (microseconds since epoch) from civil date and time of day. -/
def mkUTC (y m d h mi s us : Int) : Int :=
  daysFromCivil y m d * usPerDay + (h * 3600 + mi * 60 + s) * 1000000 + us

/-- Day number since 1970-01-01 back to civil date (proleptic Gregorian). -/
def civilFromDays (z0 : Int) : Int × Int × Int :=
  let z : Int := z0 + 719468
  let era : Int := z.fdiv 146097
  let doe : Int := z - era * 146097
  let yoe : Int := (doe - doe.fdiv 1460 + doe.fdiv 36524 - doe.fdiv 146096).fdiv 365
  let y : Int := yoe + era * 400
  let doy : Int := doe - (365 * yoe + yoe.fdiv 4 - yoe.fdiv 100)
  let mp : Int := (5 * doy + 2).fdiv 153
  let d : Int := doy - (153 * mp + 2).fdiv 5 + 1
  let m : Int := mp + (if mp < 10 then 3 else -9)
  (y + (if m ≤ 2 then 1 else 0), m, d)

/-- Left-pads the decimal representation of a nonnegative integer with zeros. -/
def pad (w : Nat) (n : Int) : String :=
  let s := toString n.toNat
  String.mk (List.replicate (w - s.length) (Char.ofNat 48)) ++ s

/-- Embeds Python `datetime.isoformat()` on a UTC-tagged datetime:
`YYYY-MM-DDTHH:MM:SS[.ffffff]+00:00` (the fractional part appears only when
the microsecond field is nonzero). -/
def isoUTC (t : Int) : String :=
  let day := dateOf t
  let tod := (t - day * usPerDay).toNat
  let ymd := civilFromDays day
  let us := tod % 1000000
  let ss := tod / 1000000
  pad 4 ymd.1 ++ "-" ++ pad 2 ymd.2.1 ++ "-" ++ pad 2 ymd.2.2 ++ "T" ++
    pad 2 (Int.ofNat (ss / 3600)) ++ ":" ++ pad 2 (Int.ofNat (ss / 60 % 60)) ++ ":" ++
    pad 2 (Int.ofNat (ss % 60)) ++
    (if us = 0 then "" else "." ++ pad 6 (Int.ofNat us)) ++ "+00:00"

/-- Canonical event record as built by both `get_events` implementations
(src/main.py lines 87-93 and 157-162): the stored dict has fields `name`,
`description`, `start`, `end`. The Google side stores `event.get("summary")`,
which is `None` when the item has no summary, so `name` is an optional
string; the Yandex side always stores a string (`some`). `start` and `end`
are kept as the UTC instants whose ISO serializations the code stores (the
code re-parses them with `fromisoformat` before writing, and
`fromisoformat ∘ isoformat` is the identity on UTC datetimes). -/
structure Event where
  name : Option String
  description : String
  start : Int
  stop : Int
deriving DecidableEq

/-- Embeds Python string interpolation of a possibly-`None` value:
`f"{name}"` renders Python `None` as the four characters `None`. -/
def pyFmt : Option String → String
  | none => "None"
  | some s => s

/-- Identity Key construction shared by both `get_events` implementations:
`f"{name}/{start_iso}"` where `start_iso` is the ISO serialization of the
normalized UTC start. -/
def eventKey (e : Event) : String := pyFmt e.name ++ "/" ++ isoUTC e.start

/-- Python dict from Identity Key to event record, embedded as an
association list: assignment to a present key overwrites in place,
assignment to a fresh key appends at the end (insertion order). -/
abbrev EventMap : Type := List (String × Event)

/-- Key list of a dict, in insertion order. -/
def keysOf (m : EventMap) : List String := m.map Prod.fst

/-- Dict lookup `m[k]`: the binding of the first entry carrying `k`. Since
`dinsert` overwrites every entry carrying `k` in place, on the maps built
here this is the value of the latest assignment to `k`, matching Python. -/
def dget : EventMap → String → Option Event
  | [], _ => none
  | p :: m, k => if p.1 = k then some p.2 else dget m k

/-- Dict assignment `m[k] = v`: overwrite in place when `k` is present,
append otherwise. -/
def dinsert (m : EventMap) (k : String) (v : Event) : EventMap :=
  if k ∈ keysOf m then
    m.map (fun p => if p.1 = k then (k, v) else p)
  else
    m ++ [(k, v)]

/-- Builds a dict by assigning the listed key/value pairs in order into an
initial dict; with initial dict `a` and pairs `b` this is `{**a, **b}`. -/
def dextend (a : EventMap) (b : List (String × Event)) : EventMap :=
  b.foldl (fun m p => dinsert m p.1 p.2) a

/-- Builds a dict from scratch by assigning pairs in order, as the
`events_data[key] = {...}` loops of both `get_events` do. -/
def dictOf (l : List (String × Event)) : EventMap := dextend [] l

/-- Embeds `{**a, **b}` (src/main.py line 211): start from `a`, assign every
binding of `b` in order, so on a common key the `b` record wins. -/
def dmerge (a b : EventMap) : EventMap := dextend a b

end CalendarSync

namespace CalendarSync

/-- Window membership test of an event start, with the inclusive window
`[floor, ceiling]` used by the code (`start_dt < time_limit or
start_dt > time_limit_future` is the rejection test). -/
def inWindow (lo hi t : Int) : Prop := lo ≤ t ∧ t ≤ hi

instance (lo hi t : Int) : Decidable (inWindow lo hi t) := by
  unfold inWindow
  infer_instance

/-- Modelled from the spec: the remote queries (`calendar.search(start, end)`
for Yandex, `events().list(timeMin, timeMax)` for Google) are performed by
external services whose code is not in the repository. Per the adapter
contract, `fetch(window)` returns all events whose normalized start falls
within the window, keyed by Identity Key; the map is built by the
`events_data[key] = record` loop, later records overwriting earlier ones. -/
def fetchMap (state : List Event) (lo hi : Int) : EventMap :=
  dictOf ((state.filter (fun e => decide (inWindow lo hi e.start))).map
    (fun e => (eventKey e, e)))

/-- Embeds `YandexCalendarClient.add_event` (src/main.py lines 96-111): the
event is re-serialized to iCalendar and written to the backend — with no
check of the event start against the sync window. -/
def yandexAddEvent (state : List Event) (e : Event) : List Event :=
  state ++ [e]

/-- Embeds `GoogleCalendarClient.add_event` (src/main.py lines 165-183):
when the start lies outside `[time_limit, time_limit_future]` the write is
skipped and the skip is reported (event name and parsed start, mirroring the
`print`); otherwise the event is written. Returns the new backend state and
the list of skip reports. -/
def googleAddEvent (state : List Event) (lo hi : Int) (e : Event) :
    List Event × List (Option String × Int) :=
  if e.start < lo ∨ e.start > hi then
    (state, [(e.name, e.start)])
  else
    (state ++ [e], [])

/-- Result of one `sync` run: the two backend states after the run, the two
missing-key sets, the argument lists of the `add_event` invocations issued
to each side, and the Google-side skip reports. -/
structure SyncResult where
  yState : List Event
  gState : List Event
  missY : List String
  missG : List String
  callsY : List Event
  callsG : List Event
  skips : List (Option String × Int)
deriving DecidableEq

/-- Embeds the body of `CalendarSyncManager.sync` after the two fetches
(src/main.py lines 211-229): merge with Google-side override, compute the
two missing-key sets, then append each missing record to the side lacking
it — Yandex first, then Google, both reading `all_events` as fetched. -/
def reconcile (ys gs : List Event) (mapY mapG : EventMap) (lo hi : Int) :
    SyncResult :=
  let allEvents := dmerge mapY mapG
  let missY := (keysOf allEvents).filter (fun k => decide (k ∉ keysOf mapY))
  let missG := (keysOf allEvents).filter (fun k => decide (k ∉ keysOf mapG))
  let callsY := missY.filterMap (fun k => dget allEvents k)
  let callsG := missG.filterMap (fun k => dget allEvents k)
  let yFinal := callsY.foldl yandexAddEvent ys
  let gFinal := callsG.foldl
    (fun acc e =>
      let r := googleAddEvent acc.1 lo hi e
      (r.1, acc.2 ++ r.2))
    (gs, ([] : List (Option String × Int)))
  { yState := yFinal, gState := gFinal.1, missY := missY, missG := missG,
    callsY := callsY, callsG := callsG, skips := gFinal.2 }

/-- Embeds `CalendarSyncManager.sync` (src/main.py lines 204-229) over a
pair of backend states: fetch both maps for the window, then reconcile. -/
def sync (ys gs : List Event) (lo hi : Int) : SyncResult :=
  reconcile ys gs (fetchMap ys lo hi) (fetchMap gs lo hi) lo hi

/-- Raw datetime as delivered by a backend before normalization: the
wall-clock reading (as microseconds since epoch of the civil reading) and,
when the value is timezone-aware, its UTC offset in microseconds; `none`
means a naive datetime (`tzinfo is None`). -/
structure RawDT where
  wall : Int
  tzOffset : Option Int
deriving DecidableEq

/-- Embeds the normalization branches of `YandexCalendarClient.get_events`
(src/main.py lines 79-86): a naive datetime gets `replace(tzinfo=utc)`,
keeping its wall-clock reading; an aware one gets `astimezone(utc)`,
converting to the equivalent UTC instant (wall reading minus UTC offset). -/
def toUTC (r : RawDT) : Int :=
  match r.tzOffset with
  | none => r.wall
  | some off => r.wall - off

/-- Spec-side semantics of a raw datetime as a UTC instant, stated from the
spec's normalization contract (interpret naive values as UTC; convert aware
values to UTC), for comparison with the code's `toUTC`. -/
def specAbsUTC (r : RawDT) : Int :=
  match r.tzOffset with
  | none => r.wall
  | some off => r.wall - off

/-- One `VEVENT` component as read by `YandexCalendarClient.get_events`
(src/main.py lines 73-77): summary (a string — the code calls `.encode` on
it), optional description (defaulting to the empty string), raw start and
end datetimes. -/
structure VComp where
  summary : String
  description : Option String
  dtstart : RawDT
  dtend : RawDT
deriving DecidableEq

/-- Record built from one `VEVENT` component (src/main.py lines 88-93). -/
def yEventOf (c : VComp) : Event :=
  { name := some c.summary, description := c.description.getD "",
    start := toUTC c.dtstart, stop := toUTC c.dtend }

/-- Identity Key built for one `VEVENT` component (src/main.py lines 87-88):
`f"{name}/{start_iso}"`. -/
def yKeyOf (c : VComp) : String := c.summary ++ "/" ++ isoUTC (toUTC c.dtstart)

/-- Embeds the `events_data` construction loop of
`YandexCalendarClient.get_events` (src/main.py lines 70-94) over the raw
components delivered by the backend. -/
def yandexGetEvents (comps : List VComp) : EventMap :=
  dictOf (comps.map (fun c => (yKeyOf c, yEventOf c)))

/-- One item of the Google `events().list` response as read by
`GoogleCalendarClient.get_events` (src/main.py lines 152-156):
`event.get("summary")` is `None` when absent, the description defaults to
the empty string, and the start/end `dateTime` values are raw datetimes. -/
structure GItem where
  summary : Option String
  description : Option String
  startDT : RawDT
  endDT : RawDT
deriving DecidableEq

/-- Modelled from the spec: `convert_iso_timezone` lives in `functions.py`,
which is not in the repository; per the spec it normalizes an instant to UTC
(naive values interpreted as UTC, aware values converted) and yields its
ISO-8601 serialization with explicit UTC offset. -/
def convertIsoTimezone (r : RawDT) : String := isoUTC (toUTC r)

/-- Record built from one Google item (src/main.py lines 157-162); the
stored `name` is `event.get("summary")`, possibly `None`, and the stored
start is the normalized UTC instant whose serialization the code keeps. -/
def gEventOf (it : GItem) : Event :=
  { name := it.summary, description := it.description.getD "",
    start := toUTC it.startDT, stop := toUTC it.endDT }

/-- Identity Key built for one Google item (src/main.py line 157):
`f"{name}/{start_dt}"`, rendering a missing summary as `None`. -/
def gKeyOf (it : GItem) : String := pyFmt it.summary ++ "/" ++ convertIsoTimezone it.startDT

/-- Embeds the `events_data` construction loop of
`GoogleCalendarClient.get_events` (src/main.py lines 152-163) over the raw
items delivered by the backend. -/
def googleGetEvents (items : List GItem) : EventMap :=
  dictOf (items.map (fun it => (gKeyOf it, gEventOf it)))

/-- Failure conditions of a fetch, per the error taxonomy: the calendar
cannot be located (`ValueError` in `_get_calendar_by_name`, src/main.py
line 64) or the network call to the provider fails. -/
inductive SyncErr where
  | backendUnavailable
  | calendarNotFound
deriving DecidableEq

/-- Embeds `CalendarSyncManager.sync` with fallible fetches: the code calls
`yandex_client.get_events` first (src/main.py line 207), then
`google_client.get_events` (line 208), and catches nothing, so a raised
exception propagates before any later statement runs. A `.error` result
carries no backend states, missing sets, or append calls: nothing was
modified in that run. -/
def syncFallible (fy fg : Except SyncErr (List Event)) (lo hi : Int) :
    Except SyncErr SyncResult :=
  match fy with
  | .error e => .error e
  | .ok ys =>
    match fg with
    | .error e => .error e
    | .ok gs => .ok (sync ys gs lo hi)

example : daysFromCivil 1970 1 1 = 0 := by decide
example : daysFromCivil 2024 6 15 = 19889 := by decide
example : civilFromDays 19889 = (2024, 6, 15) := by decide
example : isoUTC (mkUTC 2024 1 1 0 0 0 0) = "2024-01-01T00:00:00+00:00" := by decide

theorem keysOf_dinsert (m : EventMap) (k : String) (v : Event) :
    keysOf (dinsert m k v) = if k ∈ keysOf m then keysOf m else keysOf m ++ [k] := by
  unfold dinsert
  split
  · simp only [keysOf, List.map_map]
    exact List.map_congr_left (by
      intro p _
      by_cases h : p.1 = k
      · simp [h]
      · simp [h])
  · simp [keysOf]

theorem mem_keysOf_dinsert (m : EventMap) (k : String) (v : Event) (j : String) :
    j ∈ keysOf (dinsert m k v) ↔ j = k ∨ j ∈ keysOf m := by
  rw [keysOf_dinsert]
  split
  · constructor
    · exact fun h => Or.inr h
    · rintro (rfl | h)
      · assumption
      · exact h
  · simp [or_comm]

theorem mem_keysOf_iff (m : EventMap) (k : String) :
    k ∈ keysOf m ↔ ∃ p ∈ m, p.1 = k := by
  simp [keysOf]

theorem dget_append (m l : EventMap) (j : String) :
    dget (m ++ l) j = (dget m j).or (dget l j) := by
  induction m with
  | nil => simp [dget]
  | cons p t ih =>
    by_cases h : p.1 = j
    · simp [dget, h]
    · simp [dget, h, ih]

theorem dget_replaceAll (m : EventMap) (k : String) (v : Event) (j : String) :
    dget (m.map (fun p => if p.1 = k then (k, v) else p)) j =
      if j = k ∧ k ∈ keysOf m then some v else dget m j := by
  induction m with
  | nil => simp [dget, keysOf]
  | cons p t ih =>
    by_cases hpk : p.1 = k
    · by_cases hjk : j = k
      · subst hjk
        simp [dget, hpk, keysOf]
      · have hkj : ¬k = j := fun h => hjk h.symm
        simp [dget, keysOf, hpk, hjk, hkj, ih]
    · by_cases hpj : p.1 = j
      · have hjk : ¬j = k := fun h => hpk (h ▸ hpj)
        simp [dget, keysOf, hpk, hpj, hjk]
      · by_cases hjk : j = k
        · subst hjk
          have hjp : ¬j = p.1 := fun h => hpj h.symm
          have hstep : dget (List.map (fun q => if q.1 = j then (j, v) else q) (p :: t)) j
              = dget (List.map (fun q => if q.1 = j then (j, v) else q) t) j := by
            simp [dget, hpk, hpj]
          rw [hstep, ih]
          by_cases hmemt : j ∈ keysOf t
          · have h1 : j ∈ keysOf (p :: t) := by
              rw [show keysOf (p :: t) = p.1 :: keysOf t from rfl]
              exact List.mem_cons_of_mem _ hmemt
            simp [hmemt, h1]
          · have h2 : j ∉ keysOf (p :: t) := by
              rw [show keysOf (p :: t) = p.1 :: keysOf t from rfl]
              intro hc
              rcases List.mem_cons.mp hc with hcc | hcc
              · exact hjp hcc
              · exact hmemt hcc
            simp [hmemt, h2, dget, hpj]
        · simp [dget, keysOf, hpk, hpj, hjk, ih]

theorem dget_eq_none_iff (m : EventMap) (k : String) :
    dget m k = none ↔ k ∉ keysOf m := by
  induction m with
  | nil => simp [dget, keysOf]
  | cons p t ih =>
    have hcons : keysOf (p :: t) = p.1 :: keysOf t := rfl
    rw [hcons]
    by_cases h : p.1 = k
    · simp [dget, h, List.mem_cons]
    · have hkp : ¬k = p.1 := fun hh => h hh.symm
      simp [dget, h, ih, List.mem_cons, hkp]

theorem mem_keysOf_of_dget (m : EventMap) (k : String) (v : Event) :
    dget m k = some v → k ∈ keysOf m := by
  intro h
  by_contra hmem
  rw [(dget_eq_none_iff m k).mpr hmem] at h
  exact Option.noConfusion h

theorem isSome_dget_of_mem_keysOf (m : EventMap) (k : String) :
    k ∈ keysOf m → ∃ v, dget m k = some v := by
  intro h
  cases hd : dget m k with
  | none => exact absurd ((dget_eq_none_iff m k).mp hd) (by simpa using h)
  | some v => exact ⟨v, rfl⟩

theorem dget_dinsert (m : EventMap) (k : String) (v : Event) (j : String) :
    dget (dinsert m k v) j = if j = k then some v else dget m j := by
  unfold dinsert
  by_cases hk : k ∈ keysOf m
  · rw [if_pos hk, dget_replaceAll]
    by_cases hjk : j = k
    · simp [hjk, hk]
    · simp [hjk]
  · rw [if_neg hk, dget_append]
    by_cases hjk : j = k
    · subst hjk
      rw [(dget_eq_none_iff m j).mpr hk]
      simp [dget]
    · have hsingle : dget [(k, v)] j = none := by
        simp only [dget, ite_eq_right_iff]
        intro h
        exact absurd h.symm hjk
      rw [hsingle]
      simp [hjk]

theorem mem_keysOf_dextend (b : List (String × Event)) (a : EventMap) (j : String) :
    j ∈ keysOf (dextend a b) ↔ j ∈ keysOf a ∨ j ∈ b.map Prod.fst := by
  induction b generalizing a with
  | nil => simp [dextend]
  | cons p t ih =>
    show j ∈ keysOf (dextend (dinsert a p.1 p.2) t) ↔ _
    rw [ih, mem_keysOf_dinsert]
    simp
    tauto

theorem dget_dextend_cases (b : List (String × Event)) (a : EventMap) (k : String)
    (v : Event) : dget (dextend a b) k = some v → (k, v) ∈ b ∨ dget a k = some v := by
  induction b generalizing a with
  | nil => exact fun h => Or.inr h
  | cons p t ih =>
    intro h
    rcases ih (dinsert a p.1 p.2) h with hmem | hbase
    · exact Or.inl (List.mem_cons_of_mem _ hmem)
    · rw [dget_dinsert] at hbase
      by_cases hk : k = p.1
      · rw [if_pos hk] at hbase
        left
        have hv : v = p.2 := by
          injection hbase with h2
          exact h2.symm
        rw [hk, hv]
        exact List.mem_cons_self _ _
      · rw [if_neg hk] at hbase
        exact Or.inr hbase

theorem nodup_keysOf_dextend (b : List (String × Event)) (a : EventMap) :
    (keysOf a).Nodup → (keysOf (dextend a b)).Nodup := by
  induction b generalizing a with
  | nil => exact fun h => h
  | cons p t ih =>
    intro h
    refine ih (dinsert a p.1 p.2) ?_
    rw [keysOf_dinsert]
    split
    · exact h
    · refine List.Nodup.append h (List.nodup_singleton _) ?_
      intro x hx hx2
      rcases List.mem_singleton.mp hx2 with rfl
      next hni => exact hni hx

theorem nodup_keysOf_dictOf (l : List (String × Event)) :
    (keysOf (dictOf l)).Nodup := by
  exact nodup_keysOf_dextend l [] (by simp [keysOf])

theorem dget_dextend_nodup (b : List (String × Event)) :
    (keysOf b).Nodup → ∀ (a : EventMap) (k : String),
      dget (dextend a b) k = if k ∈ keysOf b then dget b k else dget a k := by
  induction b with
  | nil => intro _ a k; simp [dextend, dget, keysOf]
  | cons p t ih =>
    intro hb a k
    have hcons : keysOf (p :: t) = p.1 :: keysOf t := rfl
    rw [hcons] at hb
    have hpt : p.1 ∉ keysOf t := (List.nodup_cons.mp hb).1
    have ht : (keysOf t).Nodup := (List.nodup_cons.mp hb).2
    show dget (dextend (dinsert a p.1 p.2) t) k = _
    rw [ih ht (dinsert a p.1 p.2) k, dget_dinsert]
    have hget : dget (p :: t) k = if p.1 = k then some p.2 else dget t k := rfl
    by_cases hkt : k ∈ keysOf t
    · have hknep : ¬k = p.1 := fun h => hpt (h ▸ hkt)
      have hkcons : k ∈ keysOf (p :: t) := by
        rw [hcons]; exact List.mem_cons_of_mem _ hkt
      rw [if_pos hkt, if_pos hkcons, hget, if_neg (fun h => hknep h.symm)]
    · by_cases hkp : k = p.1
      · have hkcons : k ∈ keysOf (p :: t) := by
          rw [hcons, hkp]; exact List.mem_cons_self _ _
        rw [if_neg hkt, if_pos hkp, if_pos hkcons, hget, if_pos hkp.symm]
      · have hkcons : k ∉ keysOf (p :: t) := by
          rw [hcons]
          intro hmem
          rcases List.mem_cons.mp hmem with h | h
          · exact hkp h
          · exact hkt h
        rw [if_neg hkt, if_neg hkp, if_neg hkcons]

theorem dget_dmerge (a b : EventMap) (k : String) (hb : (keysOf b).Nodup) :
    dget (dmerge a b) k = if k ∈ keysOf b then dget b k else dget a k :=
  dget_dextend_nodup b hb a k

theorem mem_dinsert_sub (m : EventMap) (k : String) (v : Event) (q : String × Event) :
    q ∈ dinsert m k v → q ∈ m ∨ q = (k, v) := by
  unfold dinsert
  split
  · intro h
    rcases List.mem_map.mp h with ⟨p, hp, heq⟩
    by_cases hpk : p.1 = k
    · right
      rw [← heq]
      simp [hpk]
    · left
      rw [← heq]
      simp only [if_neg hpk]
      exact hp
  · intro h
    rcases List.mem_append.mp h with h | h
    · exact Or.inl h
    · right
      simpa using h

theorem mem_dextend_sub (b : List (String × Event)) (a : EventMap) (q : String × Event) :
    q ∈ dextend a b → q ∈ a ∨ q ∈ b := by
  induction b generalizing a with
  | nil => exact fun h => Or.inl h
  | cons p t ih =>
    intro h
    rcases ih (dinsert a p.1 p.2) h with h2 | h2
    · rcases mem_dinsert_sub _ _ _ _ h2 with h3 | h3
      · exact Or.inl h3
      · right
        rw [h3]
        exact List.mem_cons_self _ _
    · exact Or.inr (List.mem_cons_of_mem _ h2)

theorem mem_keysOf_dmerge (a b : EventMap) (k : String) :
    k ∈ keysOf (dmerge a b) ↔ k ∈ keysOf a ∨ k ∈ keysOf b := by
  unfold dmerge
  rw [mem_keysOf_dextend]
  exact Iff.rfl

theorem mem_keysOf_fetchMap (s : List Event) (lo hi : Int) (k : String) :
    k ∈ keysOf (fetchMap s lo hi) ↔ ∃ e ∈ s, inWindow lo hi e.start ∧ eventKey e = k := by
  unfold fetchMap dictOf
  rw [mem_keysOf_dextend]
  simp [keysOf, List.mem_filter]
  constructor
  · rintro ⟨e, ⟨he, hw⟩, hk⟩
    exact ⟨e, he, hw, hk⟩
  · rintro ⟨e, he, hw, hk⟩
    exact ⟨e, ⟨he, hw⟩, hk⟩

theorem entry_fetchMap (s : List Event) (lo hi : Int) (k : String) (v : Event) :
    (k, v) ∈ fetchMap s lo hi → v ∈ s ∧ inWindow lo hi v.start ∧ eventKey v = k := by
  intro h
  rcases mem_dextend_sub _ _ _ h with h2 | h2
  · exact absurd h2 (List.not_mem_nil _)
  · rcases List.mem_map.mp h2 with ⟨e, he, heq⟩
    have hke : eventKey e = k := congrArg Prod.fst heq
    have hve : e = v := congrArg Prod.snd heq
    rcases List.mem_filter.mp he with ⟨hes, hwin⟩
    subst hve
    exact ⟨hes, of_decide_eq_true hwin, hke⟩

theorem dget_fetchMap (s : List Event) (lo hi : Int) (k : String) (v : Event) :
    dget (fetchMap s lo hi) k = some v →
      v ∈ s ∧ inWindow lo hi v.start ∧ eventKey v = k := by
  intro h
  rcases dget_dextend_cases _ _ _ _ h with hmem | hbase
  · rcases List.mem_map.mp hmem with ⟨e, he, heq⟩
    have hke : eventKey e = k := congrArg Prod.fst heq
    have hve : e = v := congrArg Prod.snd heq
    rcases List.mem_filter.mp he with ⟨hes, hwin⟩
    subst hve
    exact ⟨hes, of_decide_eq_true hwin, hke⟩
  · exact absurd hbase (by simp [dget])

theorem dget_union_prop (ys gs : List Event) (lo hi : Int) (k : String) (v : Event) :
    dget (dmerge (fetchMap ys lo hi) (fetchMap gs lo hi)) k = some v →
      (v ∈ ys ∨ v ∈ gs) ∧ inWindow lo hi v.start ∧ eventKey v = k := by
  intro h
  rcases dget_dextend_cases _ _ _ _ h with hmem | hbase
  · rcases entry_fetchMap gs lo hi k v hmem with ⟨hv, hw, hk⟩
    exact ⟨Or.inr hv, hw, hk⟩
  · rcases dget_fetchMap ys lo hi k v hbase with ⟨hv, hw, hk⟩
    exact ⟨Or.inl hv, hw, hk⟩

theorem mem_keysOf_fetchMap_append (s t : List Event) (lo hi : Int) (k : String) :
    k ∈ keysOf (fetchMap s lo hi) → k ∈ keysOf (fetchMap (s ++ t) lo hi) := by
  intro h
  rcases (mem_keysOf_fetchMap s lo hi k).mp h with ⟨e, he, hw, hk⟩
  exact (mem_keysOf_fetchMap (s ++ t) lo hi k).mpr ⟨e, List.mem_append_left t he, hw, hk⟩

theorem foldl_yandexAddEvent (calls : List Event) (s : List Event) :
    calls.foldl yandexAddEvent s = s ++ calls := by
  induction calls generalizing s with
  | nil => simp
  | cons e t ih =>
    show (t.foldl yandexAddEvent (yandexAddEvent s e)) = _
    rw [ih (yandexAddEvent s e)]
    simp [yandexAddEvent]

theorem notWindow_iff (lo hi t : Int) : (t < lo ∨ t > hi) ↔ ¬inWindow lo hi t := by
  unfold inWindow
  omega

theorem foldl_googleAddEvent (calls : List Event) (gs : List Event) (lo hi : Int)
    (acc0 : List (Option String × Int)) :
    (calls.foldl
      (fun acc e =>
        let r := googleAddEvent acc.1 lo hi e
        (r.1, acc.2 ++ r.2))
      (gs, acc0)).1 =
      gs ++ calls.filter (fun e => decide (inWindow lo hi e.start)) := by
  induction calls generalizing gs acc0 with
  | nil => simp
  | cons e t ih =>
    by_cases hw : inWindow lo hi e.start
    · have hcond : ¬(e.start < lo ∨ e.start > hi) := fun hc =>
        ((notWindow_iff lo hi e.start).mp hc) hw
      show (t.foldl _ ((googleAddEvent gs lo hi e).1, acc0 ++ (googleAddEvent gs lo hi e).2)).1 = _
      rw [show googleAddEvent gs lo hi e = (gs ++ [e], []) from by
        unfold googleAddEvent
        rw [if_neg hcond]]
      rw [ih (gs ++ [e]) (acc0 ++ [])]
      simp [hw]
    · have hcond : e.start < lo ∨ e.start > hi := (notWindow_iff lo hi e.start).mpr hw
      show (t.foldl _ ((googleAddEvent gs lo hi e).1, acc0 ++ (googleAddEvent gs lo hi e).2)).1 = _
      rw [show googleAddEvent gs lo hi e = (gs, [(e.name, e.start)]) from by
        unfold googleAddEvent
        rw [if_pos hcond]]
      rw [ih gs (acc0 ++ [(e.name, e.start)])]
      simp [hw]

theorem sync_missY_def (ys gs : List Event) (lo hi : Int) :
    (sync ys gs lo hi).missY =
      (keysOf (dmerge (fetchMap ys lo hi) (fetchMap gs lo hi))).filter
        (fun k => decide (k ∉ keysOf (fetchMap ys lo hi))) := rfl

theorem sync_missG_def (ys gs : List Event) (lo hi : Int) :
    (sync ys gs lo hi).missG =
      (keysOf (dmerge (fetchMap ys lo hi) (fetchMap gs lo hi))).filter
        (fun k => decide (k ∉ keysOf (fetchMap gs lo hi))) := rfl

theorem sync_callsY_def (ys gs : List Event) (lo hi : Int) :
    (sync ys gs lo hi).callsY = (sync ys gs lo hi).missY.filterMap
      (fun k => dget (dmerge (fetchMap ys lo hi) (fetchMap gs lo hi)) k) := rfl

theorem sync_callsG_def (ys gs : List Event) (lo hi : Int) :
    (sync ys gs lo hi).callsG = (sync ys gs lo hi).missG.filterMap
      (fun k => dget (dmerge (fetchMap ys lo hi) (fetchMap gs lo hi)) k) := rfl

theorem mem_missY_sync (ys gs : List Event) (lo hi : Int) (k : String) :
    k ∈ (sync ys gs lo hi).missY ↔
      k ∈ keysOf (dmerge (fetchMap ys lo hi) (fetchMap gs lo hi)) ∧
        k ∉ keysOf (fetchMap ys lo hi) := by
  rw [sync_missY_def, List.mem_filter]
  simp

theorem mem_missG_sync (ys gs : List Event) (lo hi : Int) (k : String) :
    k ∈ (sync ys gs lo hi).missG ↔
      k ∈ keysOf (dmerge (fetchMap ys lo hi) (fetchMap gs lo hi)) ∧
        k ∉ keysOf (fetchMap gs lo hi) := by
  rw [sync_missG_def, List.mem_filter]
  simp

theorem mem_callsY_sync (ys gs : List Event) (lo hi : Int) (v : Event) :
    v ∈ (sync ys gs lo hi).callsY ↔ ∃ k ∈ (sync ys gs lo hi).missY,
      dget (dmerge (fetchMap ys lo hi) (fetchMap gs lo hi)) k = some v := by
  rw [sync_callsY_def, List.mem_filterMap]

theorem mem_callsG_sync (ys gs : List Event) (lo hi : Int) (v : Event) :
    v ∈ (sync ys gs lo hi).callsG ↔ ∃ k ∈ (sync ys gs lo hi).missG,
      dget (dmerge (fetchMap ys lo hi) (fetchMap gs lo hi)) k = some v := by
  rw [sync_callsG_def, List.mem_filterMap]

theorem sync_yState_eq (ys gs : List Event) (lo hi : Int) :
    (sync ys gs lo hi).yState = ys ++ (sync ys gs lo hi).callsY := by
  have h : (sync ys gs lo hi).yState = (sync ys gs lo hi).callsY.foldl yandexAddEvent ys := rfl
  rw [h, foldl_yandexAddEvent]

theorem sync_callsG_window (ys gs : List Event) (lo hi : Int) :
    ∀ e ∈ (sync ys gs lo hi).callsG, inWindow lo hi e.start := by
  intro e he
  rcases (mem_callsG_sync ys gs lo hi e).mp he with ⟨k, _, hget⟩
  exact (dget_union_prop ys gs lo hi k e hget).2.1

theorem sync_callsY_window (ys gs : List Event) (lo hi : Int) :
    ∀ e ∈ (sync ys gs lo hi).callsY, inWindow lo hi e.start := by
  intro e he
  rcases (mem_callsY_sync ys gs lo hi e).mp he with ⟨k, _, hget⟩
  exact (dget_union_prop ys gs lo hi k e hget).2.1

theorem sync_gState_eq (ys gs : List Event) (lo hi : Int) :
    (sync ys gs lo hi).gState = gs ++ (sync ys gs lo hi).callsG := by
  have h : (sync ys gs lo hi).gState = ((sync ys gs lo hi).callsG.foldl
      (fun acc e =>
        let r := googleAddEvent acc.1 lo hi e
        (r.1, acc.2 ++ r.2))
      (gs, ([] : List (Option String × Int)))).1 := rfl
  rw [h, foldl_googleAddEvent]
  have hfilt : (sync ys gs lo hi).callsG.filter
      (fun e => decide (inWindow lo hi e.start)) = (sync ys gs lo hi).callsG := by
    rw [List.filter_eq_self]
    intro e he
    exact decide_eq_true (sync_callsG_window ys gs lo hi e he)
  rw [hfilt]

theorem sync_callsY_key (ys gs : List Event) (lo hi : Int) (e : Event) :
    e ∈ (sync ys gs lo hi).callsY → eventKey e ∈ keysOf (fetchMap gs lo hi) := by
  intro he
  rcases (mem_callsY_sync ys gs lo hi e).mp he with ⟨k, hmiss, hget⟩
  rcases (mem_missY_sync ys gs lo hi k).mp hmiss with ⟨hall, hnY⟩
  have hk : eventKey e = k := (dget_union_prop ys gs lo hi k e hget).2.2
  rcases (mem_keysOf_dmerge _ _ k).mp hall with hY | hG
  · exact absurd hY hnY
  · rw [hk]
    exact hG

theorem sync_callsG_key (ys gs : List Event) (lo hi : Int) (e : Event) :
    e ∈ (sync ys gs lo hi).callsG → eventKey e ∈ keysOf (fetchMap ys lo hi) := by
  intro he
  rcases (mem_callsG_sync ys gs lo hi e).mp he with ⟨k, hmiss, hget⟩
  rcases (mem_missG_sync ys gs lo hi k).mp hmiss with ⟨hall, hnG⟩
  have hk : eventKey e = k := (dget_union_prop ys gs lo hi k e hget).2.2
  rcases (mem_keysOf_dmerge _ _ k).mp hall with hY | hG
  · rw [hk]
    exact hY
  · exact absurd hG hnG

theorem sync_cover_yandex (ys gs : List Event) (lo hi : Int) (k : String) :
    k ∈ keysOf (fetchMap ys lo hi) →
      k ∈ keysOf (fetchMap ((sync ys gs lo hi).gState) lo hi) := by
  intro hk
  rw [sync_gState_eq]
  by_cases hg : k ∈ keysOf (fetchMap gs lo hi)
  · exact mem_keysOf_fetchMap_append _ _ _ _ _ hg
  · have hall : k ∈ keysOf (dmerge (fetchMap ys lo hi) (fetchMap gs lo hi)) :=
      (mem_keysOf_dmerge _ _ k).mpr (Or.inl hk)
    have hmiss : k ∈ (sync ys gs lo hi).missG :=
      (mem_missG_sync ys gs lo hi k).mpr ⟨hall, hg⟩
    rcases isSome_dget_of_mem_keysOf _ _ hall with ⟨v, hv⟩
    have hvc : v ∈ (sync ys gs lo hi).callsG :=
      (mem_callsG_sync ys gs lo hi v).mpr ⟨k, hmiss, hv⟩
    rcases dget_union_prop ys gs lo hi k v hv with ⟨_, hw, hkey⟩
    exact (mem_keysOf_fetchMap _ lo hi k).mpr ⟨v, List.mem_append_right gs hvc, hw, hkey⟩

theorem sync_cover_google (ys gs : List Event) (lo hi : Int) (k : String) :
    k ∈ keysOf (fetchMap gs lo hi) →
      k ∈ keysOf (fetchMap ((sync ys gs lo hi).yState) lo hi) := by
  intro hk
  rw [sync_yState_eq]
  by_cases hy : k ∈ keysOf (fetchMap ys lo hi)
  · exact mem_keysOf_fetchMap_append _ _ _ _ _ hy
  · have hall : k ∈ keysOf (dmerge (fetchMap ys lo hi) (fetchMap gs lo hi)) :=
      (mem_keysOf_dmerge _ _ k).mpr (Or.inr hk)
    have hmiss : k ∈ (sync ys gs lo hi).missY :=
      (mem_missY_sync ys gs lo hi k).mpr ⟨hall, hy⟩
    rcases isSome_dget_of_mem_keysOf _ _ hall with ⟨v, hv⟩
    have hvc : v ∈ (sync ys gs lo hi).callsY :=
      (mem_callsY_sync ys gs lo hi v).mpr ⟨k, hmiss, hv⟩
    rcases dget_union_prop ys gs lo hi k v hv with ⟨_, hw, hkey⟩
    exact (mem_keysOf_fetchMap _ lo hi k).mpr ⟨v, List.mem_append_right ys hvc, hw, hkey⟩

theorem sync_keys_agree (ys gs : List Event) (lo hi : Int) (k : String) :
    (k ∈ keysOf (fetchMap ((sync ys gs lo hi).yState) lo hi) →
      k ∈ keysOf (fetchMap ((sync ys gs lo hi).gState) lo hi)) ∧
    (k ∈ keysOf (fetchMap ((sync ys gs lo hi).gState) lo hi) →
      k ∈ keysOf (fetchMap ((sync ys gs lo hi).yState) lo hi)) := by
  constructor
  · intro hk
    rcases (mem_keysOf_fetchMap _ lo hi k).mp hk with ⟨e, he, hw, hkey⟩
    rw [sync_yState_eq] at he
    rcases List.mem_append.mp he with he | he
    · exact sync_cover_yandex ys gs lo hi k
        ((mem_keysOf_fetchMap ys lo hi k).mpr ⟨e, he, hw, hkey⟩)
    · have hkG : eventKey e ∈ keysOf (fetchMap gs lo hi) := sync_callsY_key ys gs lo hi e he
      rw [hkey] at hkG
      rw [sync_gState_eq]
      exact mem_keysOf_fetchMap_append _ _ _ _ _ hkG
  · intro hk
    rcases (mem_keysOf_fetchMap _ lo hi k).mp hk with ⟨e, he, hw, hkey⟩
    rw [sync_gState_eq] at he
    rcases List.mem_append.mp he with he | he
    · exact sync_cover_google ys gs lo hi k
        ((mem_keysOf_fetchMap gs lo hi k).mpr ⟨e, he, hw, hkey⟩)
    · have hkY : eventKey e ∈ keysOf (fetchMap ys lo hi) := sync_callsG_key ys gs lo hi e he
      rw [hkey] at hkY
      rw [sync_yState_eq]
      exact mem_keysOf_fetchMap_append _ _ _ _ _ hkY

/-- C1: for any fixed pair of backend states and any window, running `sync`
twice in immediate succession with no external mutation between the runs
(the first run's appends being part of the states the second run fetches
from) produces empty missing sets on the second run, so the second run
performs no appends. -/
theorem claim_C1_idempotence (ys gs : List Event) (lo hi : Int) :
    (sync ((sync ys gs lo hi).yState) ((sync ys gs lo hi).gState) lo hi).missY = [] ∧
    (sync ((sync ys gs lo hi).yState) ((sync ys gs lo hi).gState) lo hi).missG = [] := by
  constructor
  · rw [sync_missY_def, List.filter_eq_nil_iff]
    intro k hk
    simp only [decide_eq_true_eq, not_not]
    rcases (mem_keysOf_dmerge _ _ k).mp hk with h | h
    · exact h
    · exact (sync_keys_agree ys gs lo hi k).2 h
  · rw [sync_missG_def, List.filter_eq_nil_iff]
    intro k hk
    simp only [decide_eq_true_eq, not_not]
    rcases (mem_keysOf_dmerge _ _ k).mp hk with h | h
    · exact (sync_keys_agree ys gs lo hi k).1 h
    · exact h

/-- C9: for every pair of fetched maps the two missing sets computed by
`sync` are disjoint, because every key of the merged union originates from
at least one of the two maps: the key set of the union is exactly the union
of the two key sets. -/
theorem claim_C9_missing_disjoint (ys gs : List Event) (lo hi : Int) (k : String) :
    (k ∈ keysOf (dmerge (fetchMap ys lo hi) (fetchMap gs lo hi)) ↔
      k ∈ keysOf (fetchMap ys lo hi) ∨ k ∈ keysOf (fetchMap gs lo hi)) ∧
    ¬(k ∈ (sync ys gs lo hi).missY ∧ k ∈ (sync ys gs lo hi).missG) := by
  constructor
  · exact mem_keysOf_dmerge _ _ k
  · rintro ⟨hY, hG⟩
    rcases (mem_missY_sync ys gs lo hi k).mp hY with ⟨hall, hnY⟩
    rcases (mem_missG_sync ys gs lo hi k).mp hG with ⟨_, hnG⟩
    rcases (mem_keysOf_dmerge _ _ k).mp hall with h | h
    · exact hnY h
    · exact hnG h

/-- Witness for C9 at a concrete key and empty backend states. -/
theorem claim_C9_witness :
    ¬("k" ∈ (sync [] [] 0 0).missY ∧ "k" ∈ (sync [] [] 0 0).missG) :=
  (claim_C9_missing_disjoint [] [] 0 0 "k").2

/-- C4: in the merged union map built by `sync`, every Identity Key present
in both fetched maps carries the record from the Google map (the second,
override side of `{**yandex_events, **google_events}`), and a key present in
only one map keeps that map's record. -/
theorem claim_C4_merge_override (ys gs : List Event) (lo hi : Int) (k : String) :
    (k ∈ keysOf (fetchMap ys lo hi) → k ∈ keysOf (fetchMap gs lo hi) →
      dget (dmerge (fetchMap ys lo hi) (fetchMap gs lo hi)) k =
        dget (fetchMap gs lo hi) k) ∧
    (k ∈ keysOf (fetchMap ys lo hi) → k ∉ keysOf (fetchMap gs lo hi) →
      dget (dmerge (fetchMap ys lo hi) (fetchMap gs lo hi)) k =
        dget (fetchMap ys lo hi) k) ∧
    (k ∉ keysOf (fetchMap ys lo hi) → k ∈ keysOf (fetchMap gs lo hi) →
      dget (dmerge (fetchMap ys lo hi) (fetchMap gs lo hi)) k =
        dget (fetchMap gs lo hi) k) := by
  have hnd : (keysOf (fetchMap gs lo hi)).Nodup := by
    unfold fetchMap
    exact nodup_keysOf_dictOf _
  refine ⟨fun _ hB => ?_, fun _ hnB => ?_, fun _ hB => ?_⟩
  · rw [dget_dmerge _ _ _ hnd, if_pos hB]
  · rw [dget_dmerge _ _ _ hnd, if_neg hnB]
  · rw [dget_dmerge _ _ _ hnd, if_pos hB]

/-- Witness for C4: one event per backend sharing the Identity Key
`A/1970-01-01T00:00:00+00:00`; the union carries the Google-side record. -/
theorem claim_C4_witness :
    dget (dmerge (fetchMap [(⟨some "A", "", 0, 0⟩ : Event)] 0 0)
        (fetchMap [(⟨some "A", "b", 0, 5⟩ : Event)] 0 0))
        "A/1970-01-01T00:00:00+00:00" =
      dget (fetchMap [(⟨some "A", "b", 0, 5⟩ : Event)] 0 0)
        "A/1970-01-01T00:00:00+00:00" :=
  (claim_C4_merge_override [(⟨some "A", "", 0, 0⟩ : Event)]
    [(⟨some "A", "b", 0, 5⟩ : Event)] 0 0 "A/1970-01-01T00:00:00+00:00").1
    (by decide) (by decide)

/-- C3: `sync` computes `missingInA` as the keys of the union minus the keys
of `mapA` and `missingInB` as the keys of the union minus the keys of
`mapB`; for `mapA` holding exactly the key `X/2024-01-01T00:00:00Z` mapped
to `ev1` and `mapB` empty, `missingInB` is exactly that key, `missingInA` is
empty, and the Google-side `add_event` is invoked exactly once, with `ev1`. -/
theorem claim_C3_missing_sets (ev1 : Event) (ys gs : List Event) (lo hi : Int) :
    ((reconcile ys gs [("X/2024-01-01T00:00:00Z", ev1)] [] lo hi).missG =
      ["X/2024-01-01T00:00:00Z"]) ∧
    ((reconcile ys gs [("X/2024-01-01T00:00:00Z", ev1)] [] lo hi).missY = []) ∧
    ((reconcile ys gs [("X/2024-01-01T00:00:00Z", ev1)] [] lo hi).callsG = [ev1]) ∧
    (∀ mapY mapG : EventMap,
      (reconcile ys gs mapY mapG lo hi).missY =
        (keysOf (dmerge mapY mapG)).filter (fun k => decide (k ∉ keysOf mapY)) ∧
      (reconcile ys gs mapY mapG lo hi).missG =
        (keysOf (dmerge mapY mapG)).filter (fun k => decide (k ∉ keysOf mapG))) := by
  refine ⟨?_, ?_, ?_, fun mapY mapG => ⟨rfl, rfl⟩⟩
  · rfl
  · rfl
  · rfl

/-- C7: a fetch failure propagates out of `sync` uncaught and the run
performs no appends on either side; a failure of the first (Yandex) fetch
yields the error no matter what the second fetch would return, so the
second fetch is never consulted and no backend state is produced. -/
theorem claim_C7_fetch_failure (e : SyncErr) (fg : Except SyncErr (List Event))
    (lo hi : Int) :
    syncFallible (.error e) fg lo hi = .error e ∧
    (∀ ys : List Event, syncFallible (.ok ys) (.error e) lo hi = .error e) :=
  ⟨rfl, fun _ => rfl⟩

/-- C5: the computed window has floor equal to the start of day of now's UTC
date minus `pastDays` days and ceiling equal to the last representable
instant (23:59:59.999999) of now's UTC date plus `futureDays` days; in
particular, for now = 2024-06-15T00:00:00Z, pastDays = 7, futureDays = 30,
the floor is 2024-06-08T00:00:00Z and the ceiling 2024-07-15T23:59:59.999999Z. -/
theorem claim_C5_window (now p f : Int) (_hp : 0 ≤ p) (_hf : 0 ≤ f) :
    computeWindow now p f = (startOfDay (dateOf now - p), endOfDay (dateOf now + f)) ∧
    computeWindow (mkUTC 2024 6 15 0 0 0 0) 7 30 =
      (mkUTC 2024 6 8 0 0 0 0, mkUTC 2024 7 15 23 59 59 999999) :=
  ⟨rfl, by decide⟩

/-- Witness for C5 at now = 2024-06-15T00:00:00Z, pastDays = 7, futureDays = 30. -/
theorem claim_C5_witness :
    computeWindow (mkUTC 2024 6 15 0 0 0 0) 7 30 =
      (startOfDay (dateOf (mkUTC 2024 6 15 0 0 0 0) - 7),
       endOfDay (dateOf (mkUTC 2024 6 15 0 0 0 0) + 30)) :=
  (claim_C5_window (mkUTC 2024 6 15 0 0 0 0) 7 30 (by decide) (by decide)).1

/-- C2 counterexample: the Yandex-side `add_event` performs no window
re-check, so an event whose start lies outside the window (here the window
`[0, usPerDay]` and a start two days later) still produces a successful
append on the Yandex adapter, refuting the claim that an out-of-window start
never produces a successful append on either adapter. -/
theorem claim_C2_counterexample :
    ¬inWindow 0 usPerDay (2 * usPerDay) ∧
    yandexAddEvent []
        { name := some "far", description := "", start := 2 * usPerDay,
          stop := 2 * usPerDay } =
      [{ name := some "far", description := "", start := 2 * usPerDay,
         stop := 2 * usPerDay }] :=
  ⟨by decide, rfl⟩

/-- C2, amended: only the Google-side `add_event` re-checks the start
against the window before the remote write — skipping the write and
reporting the event name and start when the start lies outside, with no
error — so an out-of-window start never produces a successful append on the
Google adapter; the Yandex-side `add_event` writes unconditionally. -/
theorem claim_C2_google_window (s : List Event) (lo hi : Int) (e : Event) :
    (e.start < lo ∨ e.start > hi →
      googleAddEvent s lo hi e = (s, [(e.name, e.start)])) ∧
    (inWindow lo hi e.start → googleAddEvent s lo hi e = (s ++ [e], [])) ∧
    yandexAddEvent s e = s ++ [e] := by
  refine ⟨fun h => ?_, fun h => ?_, rfl⟩
  · unfold googleAddEvent
    rw [if_pos h]
  · unfold googleAddEvent
    rw [if_neg (fun hc => (notWindow_iff lo hi e.start).mp hc h)]

/-- Witness for the amended C2: a start two days past the ceiling is
skipped and reported by the Google-side append. -/
theorem claim_C2_witness :
    googleAddEvent [] 0 usPerDay
        { name := some "far", description := "", start := 2 * usPerDay,
          stop := 2 * usPerDay } =
      ([], [(some "far", 2 * usPerDay)]) :=
  (claim_C2_google_window [] 0 usPerDay
    { name := some "far", description := "", start := 2 * usPerDay,
      stop := 2 * usPerDay }).1 (by decide)

/-- C8: during normalization of fetched events, a start or end with no
timezone information keeps its wall-clock value and is tagged UTC, and one
carrying an offset is converted to the equivalent UTC instant; the stored
start and end of every normalized event (on both adapters) are these UTC
instants. -/
theorem claim_C8_utc_normalization (c : VComp) (it : GItem) :
    ((yEventOf c).start = specAbsUTC c.dtstart ∧
     (yEventOf c).stop = specAbsUTC c.dtend ∧
     (gEventOf it).start = specAbsUTC it.startDT ∧
     (gEventOf it).stop = specAbsUTC it.endDT) ∧
    (∀ r : RawDT, r.tzOffset = none → toUTC r = r.wall) ∧
    (∀ r : RawDT, ∀ off : Int, r.tzOffset = some off → toUTC r = r.wall - off) := by
  refine ⟨⟨rfl, rfl, rfl, rfl⟩, fun r h => ?_, fun r off h => ?_⟩
  · simp [toUTC, h]
  · simp [toUTC, h]

/-- Witness for C8: a naive reading keeps its wall value; an aware reading
is shifted by its offset. -/
theorem claim_C8_witness :
    toUTC { wall := 5, tzOffset := none } = 5 ∧
    toUTC { wall := 5, tzOffset := some 2 } = 3 := by
  constructor
  · exact (claim_C8_utc_normalization
      { summary := "a", description := none,
        dtstart := { wall := 0, tzOffset := none },
        dtend := { wall := 0, tzOffset := none } }
      { summary := none, description := none,
        startDT := { wall := 0, tzOffset := none },
        endDT := { wall := 0, tzOffset := none } }).2.1
      { wall := 5, tzOffset := none } rfl
  · have h := (claim_C8_utc_normalization
      { summary := "a", description := none,
        dtstart := { wall := 0, tzOffset := none },
        dtend := { wall := 0, tzOffset := none } }
      { summary := none, description := none,
        startDT := { wall := 0, tzOffset := none },
        endDT := { wall := 0, tzOffset := none } }).2.2
      { wall := 5, tzOffset := some 2 } 2 rfl
    simpa using h

theorem dictOf_pair_collapse (k : String) (v1 v2 : Event) :
    dictOf [(k, v1), (k, v2)] = [(k, v2)] := by
  have h1 : dinsert [] k v1 = [(k, v1)] := by
    simp [dinsert, keysOf]
  show dinsert (dinsert [] k v1) k v2 = [(k, v2)]
  rw [h1]
  simp [dinsert, keysOf]

/-- C6: the Identity Key an event is stored under is exactly its name,
then `/`, then the ISO-8601 serialization of its normalized UTC start, on
both adapters; consequently two records with identical name and start
(whatever their end or description) receive the same single key, and a map
built from both holds exactly one entry. -/
theorem claim_C6_identity_key (c1 c2 : VComp) (i1 i2 : GItem) (e1 e2 : Event) :
    (yKeyOf c1 = c1.summary ++ "/" ++ isoUTC (toUTC c1.dtstart)) ∧
    (gKeyOf i1 = pyFmt i1.summary ++ "/" ++ isoUTC (toUTC i1.startDT)) ∧
    (c1.summary = c2.summary → toUTC c1.dtstart = toUTC c2.dtstart →
      yKeyOf c1 = yKeyOf c2 ∧ keysOf (yandexGetEvents [c1, c2]) = [yKeyOf c2]) ∧
    (i1.summary = i2.summary → toUTC i1.startDT = toUTC i2.startDT →
      gKeyOf i1 = gKeyOf i2 ∧ keysOf (googleGetEvents [i1, i2]) = [gKeyOf i2]) ∧
    (e1.name = e2.name → e1.start = e2.start → eventKey e1 = eventKey e2) := by
  refine ⟨rfl, rfl, fun hs hst => ?_, fun hs hst => ?_, fun hn hst => ?_⟩
  · have hkk : yKeyOf c1 = yKeyOf c2 := by
      unfold yKeyOf
      rw [hs, hst]
    refine ⟨hkk, ?_⟩
    show keysOf (dictOf [(yKeyOf c1, yEventOf c1), (yKeyOf c2, yEventOf c2)]) = _
    rw [hkk, dictOf_pair_collapse]
    rfl
  · have hkk : gKeyOf i1 = gKeyOf i2 := by
      unfold gKeyOf convertIsoTimezone
      rw [hs, hst]
    refine ⟨hkk, ?_⟩
    show keysOf (dictOf [(gKeyOf i1, gEventOf i1), (gKeyOf i2, gEventOf i2)]) = _
    rw [hkk, dictOf_pair_collapse]
    rfl
  · unfold eventKey
    rw [hn, hst]

/-- Witness for C6: two components sharing name and start but differing in
description and end collapse to one key and one stored entry. -/
theorem claim_C6_witness :
    yKeyOf (⟨"X", some "a", ⟨0, none⟩, ⟨0, none⟩⟩ : VComp) =
      yKeyOf (⟨"X", none, ⟨0, none⟩, ⟨7, none⟩⟩ : VComp) ∧
    keysOf (yandexGetEvents
        [(⟨"X", some "a", ⟨0, none⟩, ⟨0, none⟩⟩ : VComp),
          (⟨"X", none, ⟨0, none⟩, ⟨7, none⟩⟩ : VComp)]) =
      [yKeyOf (⟨"X", none, ⟨0, none⟩, ⟨7, none⟩⟩ : VComp)] :=
  (claim_C6_identity_key
    (⟨"X", some "a", ⟨0, none⟩, ⟨0, none⟩⟩ : VComp)
    (⟨"X", none, ⟨0, none⟩, ⟨7, none⟩⟩ : VComp)
    (⟨none, none, ⟨0, none⟩, ⟨0, none⟩⟩ : GItem)
    (⟨none, none, ⟨0, none⟩, ⟨0, none⟩⟩ : GItem)
    (⟨none, "", 0, 0⟩ : Event) (⟨none, "", 0, 0⟩ : Event)).2.2.1 rfl rfl

/-- C10: a Google item with no `summary` field yields a map entry whose
stored name is `None` (null) and whose Identity Key is the string `None/`
followed by the serialized start instant, and that record flows unchanged
into the union and into the Yandex-side append calls. -/
theorem claim_C10_none_summary (lo hi : Int) :
    googleGetEvents [(⟨none, none, ⟨0, none⟩, ⟨0, none⟩⟩ : GItem)] =
      [("None/1970-01-01T00:00:00+00:00", (⟨none, "", 0, 0⟩ : Event))] ∧
    dget (dmerge [] (googleGetEvents [(⟨none, none, ⟨0, none⟩, ⟨0, none⟩⟩ : GItem)]))
        "None/1970-01-01T00:00:00+00:00" = some (⟨none, "", 0, 0⟩ : Event) ∧
    (reconcile [] [] []
        (googleGetEvents [(⟨none, none, ⟨0, none⟩, ⟨0, none⟩⟩ : GItem)]) lo hi).callsY =
      [(⟨none, "", 0, 0⟩ : Event)] := by
  refine ⟨?_, ?_, ?_⟩
  · rfl
  · rfl
  · rfl

end CalendarSync
